import Mathlib

/-!
Verification of `find_nearest_isoforms.py` (nearest per-gene isoforms
within a window around a set of sites).

The script's own logic (`per_gene_nearest_transcript_filter`, the pipeline
wiring in `main`, the `WINDOW_SIZE` constant) is embedded from the source.
The genomic-interval engine it calls (`extend`, `merge`, `join`, `nearest`
from the `pyranges` library) is not part of the repository's source, so
those operations are modelled from the spec (each such definition says so
in its doc comment).

Coordinates follow the half-open convention `[start, stop)` with `Nat`
coordinates; the extend distance is an `Int` so that negative distances
can be rejected.
-/

/-- A genomic interval: chromosome name plus half-open coordinates
`[start, stop)`.  (`end` is a Lean keyword, so the exclusive endpoint is
called `stop`.) -/
structure GenomicInterval where
  chromosome : String
  start : Nat
  stop : Nat
deriving DecidableEq, Repr

/-- A transcript row: a genomic interval together with its strand and the
`gene_id` / `transcript_id` attributes used by the script. -/
structure Transcript where
  chromosome : String
  start : Nat
  stop : Nat
  strand : String
  gene_id : String
  transcript_id : String
deriving DecidableEq, Repr

/-- The plain interval of a transcript. -/
def tIval (t : Transcript) : GenomicInterval :=
  ⟨t.chromosome, t.start, t.stop⟩

/-- Strict open overlap of two half-open intervals on the same chromosome:
`a.chromosome == b.chromosome` and `a.start < b.end && b.start < a.end`. -/
def overlaps (a b : GenomicInterval) : Bool :=
  a.chromosome == b.chromosome && decide (a.start < b.stop) && decide (b.start < a.stop)

/-- Error kinds of the interval engine. -/
inductive EngineError where
  | InvalidArgument
  | InvalidInterval
deriving DecidableEq, Repr

/-- Modelled from the spec: `pyranges.PyRanges.extend` (the library call
`sites.extend(WINDOW_SIZE)` at `find_nearest_isoforms.py:85` is not in the
repository's source).  For every interval, `start` becomes
`max(0, start - distance)` and `end` becomes `end + distance`; no clamping
on the right side; fails with `InvalidArgument` if `distance < 0`. -/
def extend (s : List GenomicInterval) (distance : Int) : Except EngineError (List GenomicInterval) :=
  if distance < 0 then .error .InvalidArgument
  else .ok (s.map fun i =>
    ⟨i.chromosome, ((i.start : Int) - distance).toNat, ((i.stop : Int) + distance).toNat⟩)

/-- Sort key for merge: by `start`, ties broken by `stop` ascending. -/
def ivLE (a b : GenomicInterval) : Prop :=
  a.start < b.start ∨ (a.start = b.start ∧ a.stop ≤ b.stop)

instance : DecidableRel ivLE := fun a b => by
  unfold ivLE
  exact inferInstance

instance : IsTotal GenomicInterval ivLE := by
  constructor
  intro a b
  unfold ivLE
  omega

instance : IsTrans GenomicInterval ivLE := by
  constructor
  intro a b c hab hbc
  unfold ivLE at hab hbc ⊢
  omega

/-- One left-to-right sweep of the merge: combine any interval whose start
is `<=` the running maximum end into the current merged interval. -/
def sweepAux : GenomicInterval → List GenomicInterval → List GenomicInterval
  | cur, [] => [cur]
  | cur, i :: rest =>
    if i.start ≤ cur.stop then
      sweepAux ⟨cur.chromosome, cur.start, max cur.stop i.stop⟩ rest
    else
      cur :: sweepAux i rest

/-- Sweep of a whole (sorted) list. -/
def sweep : List GenomicInterval → List GenomicInterval
  | [] => []
  | i :: rest => sweepAux i rest

/-- Merge of the intervals of a single chromosome: sort by start (ties by
end ascending), then sweep left-to-right. -/
def mergeChrom (l : List GenomicInterval) : List GenomicInterval :=
  sweep (List.insertionSort ivLE l)

/-- First-occurrence deduplication of a list of strings. -/
def dedupFirst : List String → List String
  | [] => []
  | c :: rest => c :: (dedupFirst rest).filter (fun x => x != c)

/-- The chromosomes of an interval list, in order of first appearance. -/
def chroms (s : List GenomicInterval) : List String :=
  dedupFirst (s.map (fun i => i.chromosome))

/-- Modelled from the spec: `pyranges.PyRanges.merge` with `strand=False`
(the library call at `find_nearest_isoforms.py:85` is not in the
repository's source).  On each chromosome, sort intervals by start (ties by
end ascending) and sweep left-to-right, combining any interval whose start
is `<=` the running maximum end; strand is ignored; merge is a lossy
geometric reduction keeping only chromosome and coordinates. -/
def merge (s : List GenomicInterval) : List GenomicInterval :=
  (chroms s).flatMap (fun c => mergeChrom (s.filter (fun i => i.chromosome == c)))

/-- One row of the overlap join: a transcript (A-side) paired with the
extended-site window (B-side) it overlaps; the B-side coordinates are the
`Start_b` / `End_b` columns of the joined frame. -/
structure JoinedRow where
  t : Transcript
  b : GenomicInterval
deriving DecidableEq, Repr

/-- Modelled from the spec: `pyranges.PyRanges.join` (the library call
`transcripts.join(sites_extended)` at `find_nearest_isoforms.py:94` is not
in the repository's source).  Produces one row per (transcript, window)
pair overlapping per `overlaps`; inner-join semantics. -/
def joinOverlap (ts : List Transcript) (bs : List GenomicInterval) : List JoinedRow :=
  ts.flatMap (fun t => (bs.filter (fun b => overlaps (tIval t) b)).map (fun b => ⟨t, b⟩))

/-- Distance between a site and a non-overlapping interval: the gap between
the closer edges `max(0, other.start - site.end, site.start - other.end)`,
floored at 1 once overlap is excluded (`Nat` subtraction supplies the
`max 0`). -/
def distOf (s t : GenomicInterval) : Nat :=
  max 1 (max (t.start - s.stop) (s.start - t.stop))

/-- A transcript interval is a nearest-candidate for a site when it lies on
the same chromosome and does not positionally overlap the site
(`overlap=False` policy of the nearest call). -/
def isCandidate (s t : GenomicInterval) : Bool :=
  s.chromosome == t.chromosome && !(decide (s.start < t.stop) && decide (t.start < s.stop))

/-- Modelled from the spec: the per-site selection of
`pyranges.PyRanges.nearest` with `overlap=False` (the library call at
`find_nearest_isoforms.py:151` is not in the repository's source).
Among same-chromosome non-overlapping candidates, pick one of minimal
distance; ties are broken deterministically by first position in the
candidate list; `none` when no candidate exists.  `nearerOf` is the fold
step keeping the nearer of the accumulator and the next candidate. -/
def nearerOf (s : GenomicInterval) (acc : Option Transcript) (t : Transcript) : Option Transcript :=
  match acc with
  | none => some t
  | some u => if distOf s (tIval t) < distOf s (tIval u) then some t else acc

/-- Modelled from the spec (continued from `nearerOf`): restrict to
candidates, then fold for the minimum. -/
def pickNearest (s : GenomicInterval) (ts : List Transcript) : Option Transcript :=
  (ts.filter (fun t => isCandidate s (tIval t))).foldl (nearerOf s) none

/-- One nearest-neighbor result row: the site, the chosen transcript, their
distance, and the gene the transcript belongs to. -/
structure NearestResult where
  site : GenomicInterval
  nearest : Transcript
  distance : Nat
  gene_id : String
deriving DecidableEq, Repr

/-- The window-filtered transcript subset of one gene: the A-side
transcripts of the join rows carrying that `gene_id`. -/
def geneSubset (rows : List JoinedRow) (g : String) : List Transcript :=
  (rows.filter (fun r => r.t.gene_id == g)).map (fun r => r.t)

/-- The distinct `gene_id` values of the join output, in sorted order
(pandas `groupby` iterates group keys in sorted order). -/
def geneIds (rows : List JoinedRow) : List String :=
  List.insertionSort (fun a b => a ≤ b) (dedupFirst (rows.map (fun r => r.t.gene_id)))

/-- Embeds `per_gene_nearest_transcript_filter`
(`find_nearest_isoforms.py:144-157`): group the join rows by `gene_id`;
for each gene, run every original site against that gene's transcript
subset with the overlap-excluding nearest search; tag each resulting row
with the gene's id; concatenate the per-gene results. -/
def per_gene_nearest_transcript_filter (sites : List GenomicInterval) (rows : List JoinedRow) :
    List NearestResult :=
  (geneIds rows).flatMap (fun g =>
    sites.filterMap (fun s =>
      (pickNearest s (geneSubset rows g)).map
        (fun t => ⟨s, t, distOf s (tIval t), g⟩)))

/-- `WINDOW_SIZE` constant of the script (`find_nearest_isoforms.py:18`). -/
def WINDOW_SIZE : Int := 100000

/-- The pipeline of `main` (`find_nearest_isoforms.py:85-101`): extend the
sites by the window, merge the extended windows ignoring strand, join the
transcripts against the windows, then run the per-gene nearest filter
against the original (unextended) sites. -/
def pipeline (sites : List GenomicInterval) (ts : List Transcript) (distance : Int) :
    Except EngineError (List NearestResult) :=
  match extend sites distance with
  | .error e => .error e
  | .ok ext => .ok (per_gene_nearest_transcript_filter sites (joinOverlap ts (merge ext)))

/-! ### Properties of the nearest-candidate fold -/

lemma foldl_nearerOf_spec (s : GenomicInterval) :
    ∀ (l : List Transcript) (acc : Option Transcript) (t : Transcript),
      l.foldl (nearerOf s) acc = some t →
      (t ∈ l ∨ acc = some t) ∧
      (∀ u ∈ l, distOf s (tIval t) ≤ distOf s (tIval u)) ∧
      (∀ u, acc = some u → distOf s (tIval t) ≤ distOf s (tIval u))
  | [], acc, t => by
    intro h
    simp only [List.foldl_nil] at h
    refine ⟨Or.inr h, by simp, ?_⟩
    intro u hu
    rw [h] at hu
    cases hu
    exact le_refl _
  | x :: rest, acc, t => by
    intro h
    simp only [List.foldl_cons] at h
    obtain ⟨hmem, hmin, hacc⟩ := foldl_nearerOf_spec s rest (nearerOf s acc x) t h
    have hx : distOf s (tIval t) ≤ distOf s (tIval x) := by
      cases acc with
      | none => exact hacc x rfl
      | some u =>
        by_cases hd : distOf s (tIval x) < distOf s (tIval u)
        · exact hacc x (by simp [nearerOf, hd])
        · exact le_trans (hacc u (by simp [nearerOf, hd])) (le_of_not_lt hd)
    refine ⟨?_, ?_, ?_⟩
    · rcases hmem with hm | hm
      · exact Or.inl (List.mem_cons_of_mem _ hm)
      · cases acc with
        | none =>
          simp only [nearerOf] at hm
          exact Or.inl (by rw [Option.some_inj] at hm; rw [← hm]; exact List.mem_cons_self _ _)
        | some u =>
          by_cases hd : distOf s (tIval x) < distOf s (tIval u)
          · simp only [nearerOf, if_pos hd] at hm
            exact Or.inl (by rw [Option.some_inj] at hm; rw [← hm]; exact List.mem_cons_self _ _)
          · simp only [nearerOf, if_neg hd] at hm
            exact Or.inr hm
    · intro u hu
      rcases List.mem_cons.mp hu with hu | hu
      · rw [hu]; exact hx
      · exact hmin u hu
    · intro u hu
      cases acc with
      | none => cases hu
      | some v =>
        rw [Option.some_inj] at hu
        rw [← hu]
        by_cases hd : distOf s (tIval x) < distOf s (tIval v)
        · exact le_trans hx (le_of_lt hd)
        · exact hacc v (by simp [nearerOf, hd])

lemma pickNearest_eq_some (s : GenomicInterval) (ts : List Transcript) (t : Transcript)
    (h : pickNearest s ts = some t) :
    (t ∈ ts ∧ isCandidate s (tIval t) = true) ∧
    ∀ u ∈ ts, isCandidate s (tIval u) = true → distOf s (tIval t) ≤ distOf s (tIval u) := by
  unfold pickNearest at h
  obtain ⟨hmem, hmin, -⟩ := foldl_nearerOf_spec s _ none t h
  have ht : t ∈ ts.filter (fun u => isCandidate s (tIval u)) := by
    rcases hmem with hm | hm
    · exact hm
    · cases hm
  refine ⟨⟨(List.mem_filter.mp ht).1, (List.mem_filter.mp ht).2⟩, ?_⟩
  intro u hu hc
  exact hmin u (List.mem_filter.mpr ⟨hu, hc⟩)

lemma pickNearest_of_no_candidate (s : GenomicInterval) (ts : List Transcript)
    (h : ts.filter (fun t => isCandidate s (tIval t)) = []) :
    pickNearest s ts = none := by
  unfold pickNearest
  rw [h]
  rfl

/-- Every emitted result row decomposes as a (site, picked transcript) pair
for its gene. -/
lemma per_gene_mem (sites : List GenomicInterval) (rows : List JoinedRow) (r : NearestResult)
    (hr : r ∈ per_gene_nearest_transcript_filter sites rows) :
    ∃ s ∈ sites, ∃ t, pickNearest s (geneSubset rows r.gene_id) = some t ∧
      r = ⟨s, t, distOf s (tIval t), r.gene_id⟩ := by
  simp only [per_gene_nearest_transcript_filter, List.mem_flatMap, List.mem_filterMap] at hr
  obtain ⟨g, hg, s, hs, hmap⟩ := hr
  rw [Option.map_eq_some'] at hmap
  obtain ⟨t, hpick, hEq⟩ := hmap
  subst hEq
  exact ⟨s, hs, t, hpick, rfl⟩

/-! ### Concrete inputs used by scenario claims and witnesses -/

/-- The spec's concrete site `chr1:10,000,000-10,000,048`. -/
def site0 : GenomicInterval := ⟨"chr1", 10000000, 10000048⟩

/-- GENE1 transcript T1 at `9,999,000-9,999,900`. -/
def tx1 : Transcript := ⟨"chr1", 9999000, 9999900, "+", "GENE1", "T1"⟩

/-- GENE1 transcript T2 at `10,000,100-10,000,300`. -/
def tx2 : Transcript := ⟨"chr1", 10000100, 10000300, "+", "GENE1", "T2"⟩

/-- The merged window of `site0` extended by 100,000. -/
def win0 : GenomicInterval := ⟨"chr1", 9900000, 10100048⟩

/-- The join rows of the spec's concrete scenario. -/
def rows0 : List JoinedRow := [⟨tx1, win0⟩, ⟨tx2, win0⟩]

/-! ### Claim theorems -/

/-- C1.  Nearest minimality: for every NearestResult emitted by the
per-gene nearest filter, no transcript in the same gene's window-filtered
subset has a strictly smaller non-overlapping distance to that site. -/
theorem nearest_minimality (sites : List GenomicInterval) (rows : List JoinedRow)
    (r : NearestResult) (hr : r ∈ per_gene_nearest_transcript_filter sites rows)
    (t : Transcript) (ht : t ∈ geneSubset rows r.gene_id)
    (hc : isCandidate r.site (tIval t) = true) :
    r.distance ≤ distOf r.site (tIval t) := by
  obtain ⟨s, hs, t0, hpick, hEq⟩ := per_gene_mem sites rows r hr
  obtain ⟨-, hmin⟩ := pickNearest_eq_some s _ t0 hpick
  have hsite : r.site = s := by rw [hEq]
  have hdist : r.distance = distOf s (tIval t0) := by rw [hEq]
  rw [hsite] at hc
  rw [hdist, hsite]
  exact hmin t ht hc

/-- Witness for C1 at the spec's concrete scenario: the emitted row for T2
is at distance 52 while T1 sits at distance 100. -/
theorem nearest_minimality_witness :
    (⟨site0, tx2, 52, "GENE1"⟩ : NearestResult) ∈
        per_gene_nearest_transcript_filter [site0] rows0 ∧
      tx1 ∈ geneSubset rows0 "GENE1" ∧
      isCandidate site0 (tIval tx1) = true ∧
      52 ≤ distOf site0 (tIval tx1) :=
  ⟨by decide, by decide, by decide,
    nearest_minimality [site0] rows0 ⟨site0, tx2, 52, "GENE1"⟩ (by decide) tx1
      (by decide) (by decide)⟩

/-- C2.  Nearest exclusivity: every emitted NearestResult has
`distance >= 1` and its site and nearest intervals do not overlap under the
strict half-open overlap definition. -/
theorem nearest_exclusivity (sites : List GenomicInterval) (rows : List JoinedRow)
    (r : NearestResult) (hr : r ∈ per_gene_nearest_transcript_filter sites rows) :
    1 ≤ r.distance ∧ overlaps r.site (tIval r.nearest) = false := by
  obtain ⟨s, hs, t0, hpick, hEq⟩ := per_gene_mem sites rows r hr
  obtain ⟨⟨-, hcand⟩, -⟩ := pickNearest_eq_some s _ t0 hpick
  have hsite : r.site = s := by rw [hEq]
  have hnear : r.nearest = t0 := by rw [hEq]
  have hdist : r.distance = distOf s (tIval t0) := by rw [hEq]
  rw [hsite, hnear, hdist]
  constructor
  · exact le_max_left 1 _
  · simp only [isCandidate, Bool.and_eq_true, Bool.not_eq_true',
      Bool.and_eq_false_iff, decide_eq_true_iff, decide_eq_false_iff_not] at hcand
    simp only [overlaps, Bool.and_eq_false_iff, decide_eq_false_iff_not]
    rcases hcand.2 with hP | hQ
    · exact Or.inl (Or.inr hP)
    · exact Or.inr hQ

/-- Witness for C2 at the spec's concrete scenario. -/
theorem nearest_exclusivity_witness :
    (⟨site0, tx2, 52, "GENE1"⟩ : NearestResult) ∈
        per_gene_nearest_transcript_filter [site0] rows0 ∧
      (1 ≤ (52 : Nat) ∧ overlaps site0 (tIval tx2) = false) :=
  ⟨by decide,
    nearest_exclusivity [site0] rows0 ⟨site0, tx2, 52, "GENE1"⟩ (by decide)⟩

/-- C5.  Extend semantics: for `d >= 0`, extend succeeds and replaces each
interval's start with `max(0, start - d)` and its end with `end + d`,
leaving the chromosome unchanged. -/
theorem extend_semantics (S : List GenomicInterval) (d : Int) (h : 0 ≤ d) :
    ∃ L, extend S d = .ok L ∧
      List.Forall₂ (fun o i => o.chromosome = i.chromosome ∧
        (o.start : Int) = max 0 ((i.start : Int) - d) ∧
        (o.stop : Int) = (i.stop : Int) + d) L S := by
  have hok : extend S d = .ok (S.map fun i =>
      ⟨i.chromosome, ((i.start : Int) - d).toNat, ((i.stop : Int) + d).toNat⟩) := by
    unfold extend
    rw [if_neg (by omega)]
  refine ⟨_, hok, ?_⟩
  clear hok
  induction S with
  | nil => exact List.Forall₂.nil
  | cons i rest ih =>
    simp only [List.map_cons]
    refine List.Forall₂.cons ⟨rfl, ?_, ?_⟩ ih <;> dsimp only <;> omega

/-- Witness for C5 at a concrete interval and distance. -/
theorem extend_semantics_witness :
    ∃ L, extend [⟨"chr1", 5, 10⟩] 2 = .ok L ∧
      List.Forall₂ (fun o i => o.chromosome = i.chromosome ∧
        (o.start : Int) = max 0 ((i.start : Int) - 2) ∧
        (o.stop : Int) = (i.stop : Int) + 2) L
        ([⟨"chr1", 5, 10⟩] : List GenomicInterval) :=
  extend_semantics [⟨"chr1", 5, 10⟩] 2 (by decide)

/-- C7.  Extend monotonicity: for `d >= 0`, every output interval of
`extend` contains the corresponding input interval. -/
theorem extend_monotone (S : List GenomicInterval) (d : Int) (h : 0 ≤ d) :
    ∃ L, extend S d = .ok L ∧
      List.Forall₂ (fun o i => o.start ≤ i.start ∧ i.stop ≤ o.stop) L S := by
  have hok : extend S d = .ok (S.map fun i =>
      ⟨i.chromosome, ((i.start : Int) - d).toNat, ((i.stop : Int) + d).toNat⟩) := by
    unfold extend
    rw [if_neg (by omega)]
  refine ⟨_, hok, ?_⟩
  clear hok
  induction S with
  | nil => exact List.Forall₂.nil
  | cons i rest ih =>
    simp only [List.map_cons]
    refine List.Forall₂.cons ⟨?_, ?_⟩ ih <;> dsimp only <;> omega

/-- Witness for C7 at a concrete interval and distance. -/
theorem extend_monotone_witness :
    ∃ L, extend [⟨"chr1", 5, 10⟩] 3 = .ok L ∧
      List.Forall₂ (fun o i => o.start ≤ i.start ∧ i.stop ≤ o.stop) L
        ([⟨"chr1", 5, 10⟩] : List GenomicInterval) :=
  extend_monotone [⟨"chr1", 5, 10⟩] 3 (by decide)

/-- C9.  Negative extend distance is rejected with `InvalidArgument` before
any processing, leaving no partial result. -/
theorem extend_negative (S : List GenomicInterval) (d : Int) (h : d < 0) :
    extend S d = .error .InvalidArgument := by
  unfold extend
  rw [if_pos h]

/-- Witness for C9 at distance `-1`. -/
theorem extend_negative_witness :
    extend [⟨"chr1", 5, 10⟩] (-1) = .error .InvalidArgument :=
  extend_negative [⟨"chr1", 5, 10⟩] (-1) (by decide)

/-- C3.  Concrete scenario: for the single site `chr1:10,000,000-10,000,048`
with window 100,000 and gene GENE1 having transcripts T1 and T2, the
pipeline emits exactly one NearestResult for GENE1, naming T2 with
distance 52; T1 appears in no result. -/
theorem concrete_scenario_gene1 :
    pipeline [site0] [tx1, tx2] WINDOW_SIZE =
      .ok [⟨site0, tx2, 52, "GENE1"⟩] := by
  rfl

/-- Site `chr1:0-10`, far from any transcript of gene G. -/
def siteA : GenomicInterval := ⟨"chr1", 0, 10⟩

/-- Site `chr1:1,000,000-1,000,010`, whose window captures gene G. -/
def siteB : GenomicInterval := ⟨"chr1", 1000000, 1000010⟩

/-- The only transcript of gene G, at `chr1:1,000,100-1,000,200`. -/
def txG : Transcript := ⟨"chr1", 1000100, 1000200, "+", "G", "TX"⟩

/-- C10.  A NearestResult's distance can exceed the window size: each gene
group runs every original site against the gene's window-filtered subset,
so site A — whose own extended window `chr1:0-100,010` overlaps no
transcript of gene G — still receives a NearestResult for G at distance
1,000,090 > 100,000, because site B's window captured the transcript. -/
theorem distance_can_exceed_window :
    pipeline [siteA, siteB] [txG] WINDOW_SIZE =
        .ok [⟨siteA, txG, 1000090, "G"⟩, ⟨siteB, txG, 90, "G"⟩] ∧
      extend [siteA] WINDOW_SIZE = .ok [⟨"chr1", 0, 100010⟩] ∧
      overlaps ⟨"chr1", 0, 100010⟩ (tIval txG) = false ∧
      WINDOW_SIZE < (1000090 : Int) := by
  refine ⟨by rfl, by rfl, by rfl, by decide⟩

/-- C4.  Overlap join correctness and multiplicity: a (transcript, window)
pair appears in the join output iff the two intervals overlap per the
strict half-open condition on the same chromosome, and each A-side
transcript occurrence produces exactly one row per overlapping B-interval
(inner-join semantics). -/
theorem join_characterization (ts : List Transcript) (bs : List GenomicInterval) :
    (∀ (t : Transcript) (b : GenomicInterval),
        (⟨t, b⟩ : JoinedRow) ∈ joinOverlap ts bs ↔
          t ∈ ts ∧ b ∈ bs ∧ overlaps (tIval t) b = true) ∧
    (∀ t : Transcript,
        (joinOverlap ts bs).countP (fun r => r.t == t) =
          ts.count t * bs.countP (fun b => overlaps (tIval t) b)) := by
  constructor
  · intro t b
    simp only [joinOverlap, List.mem_flatMap, List.mem_map, List.mem_filter,
      JoinedRow.mk.injEq]
    constructor
    · rintro ⟨a, ha, b', ⟨hb', hov⟩, rfl, rfl⟩
      exact ⟨ha, hb', hov⟩
    · rintro ⟨ht, hb, hov⟩
      exact ⟨t, ht, b, ⟨hb, hov⟩, rfl, rfl⟩
  · intro t
    induction ts with
    | nil => simp [joinOverlap]
    | cons a rest ih =>
      have hsplit : joinOverlap (a :: rest) bs =
          (bs.filter (fun b => overlaps (tIval a) b)).map (fun b => ⟨a, b⟩) ++
            joinOverlap rest bs := by
        simp [joinOverlap]
      rw [hsplit, List.countP_append, ih, List.countP_map]
      by_cases hat : a = t
      · subst hat
        have hconst : ((fun r : JoinedRow => r.t == a) ∘ (fun b => ⟨a, b⟩)) =
            fun _ => true := by
          funext b
          simp
        rw [hconst, List.countP_true, List.count_cons_self, Nat.succ_mul,
          List.countP_eq_length_filter]
        omega
      · have hconst : ((fun r : JoinedRow => r.t == t) ∘ (fun b => ⟨a, b⟩)) =
            fun _ => false := by
          funext b
          simp [hat]
        rw [hconst, List.countP_false, List.count_cons_of_ne (Ne.symm hat)]
        simp [Function.const]

/-- The join against an empty window set is empty. -/
lemma joinOverlap_nil_right (ts : List Transcript) : joinOverlap ts [] = [] := by
  induction ts with
  | nil => rfl
  | cons a rest _ => simp [joinOverlap]

/-- The per-gene filter over no sites emits nothing. -/
lemma per_gene_nil_sites (rows : List JoinedRow) :
    per_gene_nearest_transcript_filter [] rows = [] := by
  simp [per_gene_nearest_transcript_filter]

/-- C8.  Empty inputs are not errors: an empty site set or an empty
transcript set propagates to an empty output through the pipeline, and a
gene group whose transcript subset is empty after candidate filtering
yields no result for a site, never an error. -/
theorem empty_inputs_propagate :
    (∀ (ts : List Transcript) (d : Int), 0 ≤ d → pipeline [] ts d = .ok []) ∧
    (∀ (ss : List GenomicInterval) (d : Int), 0 ≤ d → pipeline ss [] d = .ok []) ∧
    (∀ (s : GenomicInterval) (subset : List Transcript),
        subset.filter (fun t => isCandidate s (tIval t)) = [] →
        pickNearest s subset = none) := by
  refine ⟨?_, ?_, ?_⟩
  · intro ts d hd
    have hok : extend [] d = .ok [] := by
      unfold extend
      rw [if_neg (by omega)]
      rfl
    unfold pipeline
    rw [hok]
    dsimp only
    have hmerge : merge [] = [] := rfl
    rw [hmerge, joinOverlap_nil_right, per_gene_nil_sites]
  · intro ss d hd
    have hok : extend ss d = .ok (ss.map fun i =>
        ⟨i.chromosome, ((i.start : Int) - d).toNat, ((i.stop : Int) + d).toNat⟩) := by
      unfold extend
      rw [if_neg (by omega)]
    unfold pipeline
    rw [hok]
    dsimp only
    have hjoin : ∀ bs, joinOverlap [] bs = [] := fun bs => rfl
    rw [hjoin]
    rfl
  · intro s subset h
    exact pickNearest_of_no_candidate s subset h

/-- Witness for C8 at concrete inputs. -/
theorem empty_inputs_propagate_witness :
    pipeline [] [tx1] 5 = .ok [] ∧
      pipeline [site0] [] 5 = .ok [] ∧
      pickNearest site0 [] = none :=
  ⟨empty_inputs_propagate.1 [tx1] 5 (by decide),
    empty_inputs_propagate.2.1 [site0] 5 (by decide),
    empty_inputs_propagate.2.2 site0 [] (by rfl)⟩

/-! ### Merge idempotence: the single-chromosome sweep -/

lemma sweepAux_ne_nil : ∀ (l : List GenomicInterval) (cur), sweepAux cur l ≠ []
  | [], cur => by simp [sweepAux]
  | i :: rest, cur => by
    rw [sweepAux]
    by_cases hle : i.start ≤ cur.stop
    · rw [if_pos hle]
      exact sweepAux_ne_nil rest _
    · rw [if_neg hle]
      simp

lemma sweepAux_chrom (c : String) : ∀ (l : List GenomicInterval) (cur),
    (∀ x ∈ cur :: l, x.chromosome = c) → ∀ y ∈ sweepAux cur l, y.chromosome = c
  | [], cur => by
    intro h y hy
    rw [sweepAux] at hy
    rcases List.mem_singleton.mp hy with rfl
    exact h y (List.mem_cons_self _ _)
  | i :: rest, cur => by
    intro h y hy
    rw [sweepAux] at hy
    by_cases hle : i.start ≤ cur.stop
    · rw [if_pos hle] at hy
      refine sweepAux_chrom c rest _ ?_ y hy
      intro x hx
      rcases List.mem_cons.mp hx with rfl | hx
      · exact h cur (List.mem_cons_self _ _)
      · exact h x (List.mem_cons_of_mem _ (List.mem_cons_of_mem _ hx))
    · rw [if_neg hle] at hy
      rcases List.mem_cons.mp hy with rfl | hy
      · exact h y (List.mem_cons_self _ _)
      · refine sweepAux_chrom c rest i ?_ y hy
        intro x hx
        exact h x (List.mem_cons_of_mem _ hx)

/-- Structure of a sweep over a sorted list: the output starts at the
current interval's start, is itself sorted, consecutive outputs are
strictly separated, and every output's start is the start of some input
whose end it dominates. -/
lemma sweepAux_sorted : ∀ (l : List GenomicInterval) (cur),
    List.Sorted ivLE (cur :: l) →
    (∃ t o, sweepAux cur l = ⟨cur.chromosome, cur.start, t⟩ :: o ∧ cur.stop ≤ t) ∧
    List.Sorted ivLE (sweepAux cur l) ∧
    List.Chain' (fun a b => a.stop < b.start) (sweepAux cur l) ∧
    (∀ y ∈ sweepAux cur l, ∃ x ∈ cur :: l, y.start = x.start ∧ x.stop ≤ y.stop)
  | [], cur => by
    intro _
    rw [sweepAux]
    refine ⟨⟨cur.stop, [], rfl, le_refl _⟩, List.sorted_singleton _, List.chain'_singleton _, ?_⟩
    intro y hy
    rcases List.mem_singleton.mp hy with rfl
    exact ⟨y, List.mem_cons_self _ _, rfl, le_refl _⟩
  | i :: rest, cur => by
    intro h
    have hci : ivLE cur i := List.rel_of_sorted_cons h i (List.mem_cons_self _ _)
    have hcur_all : ∀ x ∈ i :: rest, ivLE cur x := List.rel_of_sorted_cons h
    have htail : List.Sorted ivLE (i :: rest) := h.of_cons
    rw [sweepAux]
    by_cases hle : i.start ≤ cur.stop
    · rw [if_pos hle]
      have hsort' : List.Sorted ivLE (⟨cur.chromosome, cur.start, max cur.stop i.stop⟩ :: rest) := by
        rw [List.sorted_cons]
        refine ⟨?_, htail.of_cons⟩
        intro x hx
        have h1 := hcur_all x (List.mem_cons_of_mem _ hx)
        have h2 : ivLE i x := List.rel_of_sorted_cons htail x hx
        unfold ivLE at h1 h2 hci ⊢
        dsimp only
        omega
      obtain ⟨⟨t, o, heq, hstop⟩, hsorted, hchain, hmem⟩ := sweepAux_sorted rest _ hsort'
      refine ⟨⟨t, o, heq, le_trans (le_max_left _ _) hstop⟩, hsorted, hchain, ?_⟩
      intro y hy
      obtain ⟨x, hx, hstart, hstopxy⟩ := hmem y hy
      rcases List.mem_cons.mp hx with rfl | hx
      · exact ⟨cur, List.mem_cons_self _ _, hstart, le_trans (le_max_left _ _) hstopxy⟩
      · exact ⟨x, List.mem_cons_of_mem _ (List.mem_cons_of_mem _ hx), hstart, hstopxy⟩
    · rw [if_neg hle]
      obtain ⟨⟨t, o, heq, hstop⟩, hsorted, hchain, hmem⟩ := sweepAux_sorted rest i htail
      have hmem' : ∀ y ∈ cur :: sweepAux i rest,
          ∃ x ∈ cur :: i :: rest, y.start = x.start ∧ x.stop ≤ y.stop := by
        intro y hy
        rcases List.mem_cons.mp hy with rfl | hy
        · exact ⟨y, List.mem_cons_self _ _, rfl, le_refl _⟩
        · obtain ⟨x, hx, hstart, hstopxy⟩ := hmem y hy
          exact ⟨x, List.mem_cons_of_mem _ hx, hstart, hstopxy⟩
      refine ⟨⟨cur.stop, sweepAux i rest, rfl, le_refl _⟩, ?_, ?_, hmem'⟩
      · rw [List.sorted_cons]
        refine ⟨?_, hsorted⟩
        intro y hy
        obtain ⟨x, hx, hstart, hstopxy⟩ := hmem y hy
        have hcx := hcur_all x hx
        unfold ivLE at hcx ⊢
        omega
      · rw [heq]
        rw [heq] at hchain
        exact List.chain'_cons.mpr ⟨by dsimp only; omega, hchain⟩

lemma sweepAux_of_chain : ∀ (l : List GenomicInterval) (cur),
    List.Chain' (fun a b => a.stop < b.start) (cur :: l) → sweepAux cur l = cur :: l
  | [], cur => by
    intro _
    rw [sweepAux]
  | i :: rest, cur => by
    intro h
    have hsep : cur.stop < i.start := (List.chain'_cons.mp h).1
    rw [sweepAux, if_neg (by omega)]
    rw [sweepAux_of_chain rest i (List.chain'_cons.mp h).2]

/-- Per-chromosome idempotence: merging a merged chromosome changes
nothing. -/
lemma mergeChrom_idem (l : List GenomicInterval) : mergeChrom (mergeChrom l) = mergeChrom l := by
  unfold mergeChrom
  cases hs : List.insertionSort ivLE l with
  | nil => rfl
  | cons a t =>
    have hsorted : List.Sorted ivLE (a :: t) := by
      rw [← hs]
      exact List.sorted_insertionSort ivLE l
    obtain ⟨-, hsortedM, hchainM, -⟩ := sweepAux_sorted t a hsorted
    rw [show sweep (a :: t) = sweepAux a t from rfl]
    rw [List.Sorted.insertionSort_eq hsortedM]
    cases hm : sweepAux a t with
    | nil => exact absurd hm (sweepAux_ne_nil t a)
    | cons b u =>
      rw [show sweep (b :: u) = sweepAux b u from rfl]
      rw [← hm]
      rw [hm] at hchainM
      exact hm ▸ sweepAux_of_chain u b hchainM

/-! ### Merge idempotence: the chromosome-grouping layer -/

lemma filter_self_idem {α : Type} (p : α → Bool) (l : List α) :
    (l.filter p).filter p = l.filter p := by
  induction l with
  | nil => rfl
  | cons a rest ih =>
    by_cases h : p a
    · simp [List.filter_cons, h, ih]
    · simp [List.filter_cons, h, ih]

lemma mem_dedupFirst {c : String} : ∀ {l : List String}, c ∈ dedupFirst l ↔ c ∈ l
  | [] => Iff.rfl
  | d :: rest => by
    rw [dedupFirst]
    by_cases h : c = d
    · subst h
      simp
    · simp [List.mem_cons, List.mem_filter, mem_dedupFirst (l := rest), bne_iff_ne, h]

lemma nodup_dedupFirst : ∀ (l : List String), (dedupFirst l).Nodup
  | [] => List.nodup_nil
  | d :: rest => by
    rw [dedupFirst]
    refine List.nodup_cons.mpr ⟨?_, List.Nodup.filter _ (nodup_dedupFirst rest)⟩
    intro hd
    have := (List.mem_filter.mp hd).2
    simp at this

lemma dedupFirst_const_append (c : String) : ∀ (m : List String),
    (∀ x ∈ m, x = c) → m ≠ [] → ∀ (T : List String),
    dedupFirst (m ++ T) = c :: (dedupFirst T).filter (fun x => x != c)
  | [], _, hne, _ => absurd rfl hne
  | d :: m', hall, _, T => by
    have hd : d = c := hall d (List.mem_cons_self _ _)
    subst hd
    rw [List.cons_append, dedupFirst]
    by_cases hm : m' = []
    · subst hm
      rw [List.nil_append]
    · rw [dedupFirst_const_append d m' (fun x hx => hall x (List.mem_cons_of_mem _ hx)) hm T]
      simp [filter_self_idem]

lemma flatMap_congr_mem {α β : Type} : ∀ (l : List α) (f g : α → List β),
    (∀ a ∈ l, f a = g a) → l.flatMap f = l.flatMap g
  | [], _, _, _ => rfl
  | a :: l, f, g, h => by
    rw [List.flatMap_cons, List.flatMap_cons, h a (List.mem_cons_self _ _),
      flatMap_congr_mem l f g (fun x hx => h x (List.mem_cons_of_mem _ hx))]

lemma chroms_block_append (c : String) (l T : List GenomicInterval)
    (hl : ∀ x ∈ l, x.chromosome = c) (hne : l ≠ []) :
    chroms (l ++ T) = c :: (chroms T).filter (fun x => x != c) := by
  unfold chroms
  rw [List.map_append]
  refine dedupFirst_const_append c _ ?_ ?_ _
  · intro x hx
    obtain ⟨i, hi, rfl⟩ := List.mem_map.mp hx
    exact hl i hi
  · intro h
    exact hne (List.map_eq_nil_iff.mp h)

lemma chroms_flatMap_blocks : ∀ (cs : List String), cs.Nodup →
    ∀ (B : String → List GenomicInterval),
    (∀ c ∈ cs, B c ≠ [] ∧ ∀ y ∈ B c, y.chromosome = c) →
    chroms (cs.flatMap B) = cs
  | [], _, B, _ => rfl
  | c :: cs', hnd, B, hB => by
    rw [List.flatMap_cons]
    rw [chroms_block_append c (B c) _ (hB c (List.mem_cons_self _ _)).2
      (hB c (List.mem_cons_self _ _)).1]
    rw [chroms_flatMap_blocks cs' (List.nodup_cons.mp hnd).2 B
      (fun d hd => hB d (List.mem_cons_of_mem _ hd))]
    have hfresh : c ∉ cs' := (List.nodup_cons.mp hnd).1
    have hall : ∀ x ∈ cs', (x != c) = true := by
      intro x hx
      refine bne_iff_ne.mpr ?_
      rintro rfl
      exact hfresh hx
    rw [List.filter_eq_self.mpr hall]

lemma filter_flatMap_blocks : ∀ (cs : List String) (B : String → List GenomicInterval),
    (∀ d ∈ cs, ∀ y ∈ B d, y.chromosome = d) → cs.Nodup →
    ∀ c ∈ cs, (cs.flatMap B).filter (fun i => i.chromosome == c) = B c
  | [], _, _, _, c, hc => absurd hc (List.not_mem_nil c)
  | d :: cs', B, hB, hnd, c, hc => by
    rw [List.flatMap_cons, List.filter_append]
    rcases List.mem_cons.mp hc with rfl | hc'
    · have h1 : (B c).filter (fun i => i.chromosome == c) = B c := by
        refine List.filter_eq_self.mpr ?_
        intro y hy
        simp [hB c (List.mem_cons_self _ _) y hy]
      have h2 : (cs'.flatMap B).filter (fun i => i.chromosome == c) = [] := by
        refine List.filter_eq_nil_iff.mpr ?_
        intro y hy
        obtain ⟨d', hd', hyd'⟩ := List.mem_flatMap.mp hy
        have hyc : y.chromosome = d' := hB d' (List.mem_cons_of_mem _ hd') y hyd'
        have hcne : c ≠ d' := by
          rintro rfl
          exact (List.nodup_cons.mp hnd).1 hd'
        simp [hyc]
        exact fun hh => hcne hh.symm
      rw [h1, h2, List.append_nil]
    · have hdc : d ≠ c := by
        rintro rfl
        exact (List.nodup_cons.mp hnd).1 hc'
      have h1 : (B d).filter (fun i => i.chromosome == c) = [] := by
        refine List.filter_eq_nil_iff.mpr ?_
        intro y hy
        have hyd : y.chromosome = d := hB d (List.mem_cons_self _ _) y hy
        simp [hyd, hdc]
      rw [h1, List.nil_append]
      exact filter_flatMap_blocks cs' B (fun e he => hB e (List.mem_cons_of_mem _ he))
        (List.nodup_cons.mp hnd).2 c hc'

lemma mergeChrom_chrom (c : String) (l : List GenomicInterval)
    (h : ∀ x ∈ l, x.chromosome = c) : ∀ y ∈ mergeChrom l, y.chromosome = c := by
  unfold mergeChrom
  cases hs : List.insertionSort ivLE l with
  | nil =>
    intro y hy
    rw [show sweep ([] : List GenomicInterval) = [] from rfl] at hy
    cases hy
  | cons a t =>
    intro y hy
    rw [show sweep (a :: t) = sweepAux a t from rfl] at hy
    refine sweepAux_chrom c t a ?_ y hy
    intro x hx
    have hx' : x ∈ List.insertionSort ivLE l := hs ▸ hx
    exact h x ((List.mem_insertionSort ivLE).mp hx')

lemma mergeChrom_ne_nil (l : List GenomicInterval) (h : l ≠ []) : mergeChrom l ≠ [] := by
  unfold mergeChrom
  cases hs : List.insertionSort ivLE l with
  | nil =>
    exfalso
    have hlen := congrArg List.length hs
    rw [List.length_insertionSort] at hlen
    exact h (List.length_eq_zero.mp hlen)
  | cons a t =>
    rw [show sweep (a :: t) = sweepAux a t from rfl]
    exact sweepAux_ne_nil t a

/-- C6.  Merge idempotence: applying merge a second time changes
nothing. -/
theorem merge_idempotent (S : List GenomicInterval) : merge (merge S) = merge S := by
  have hBchrom : ∀ c ∈ chroms S,
      ∀ y ∈ mergeChrom (S.filter (fun i => i.chromosome == c)), y.chromosome = c := by
    intro c _ y hy
    refine mergeChrom_chrom c _ ?_ y hy
    intro x hx
    exact eq_of_beq (List.mem_filter.mp hx).2
  have hBne : ∀ c ∈ chroms S, mergeChrom (S.filter (fun i => i.chromosome == c)) ≠ [] := by
    intro c hc
    refine mergeChrom_ne_nil _ ?_
    have hc' : c ∈ S.map (fun i => i.chromosome) := mem_dedupFirst.mp hc
    obtain ⟨i, hi, hic⟩ := List.mem_map.mp hc'
    exact List.ne_nil_of_mem (List.mem_filter.mpr ⟨hi, by simp [hic]⟩)
  have hnd : (chroms S).Nodup := nodup_dedupFirst _
  have hcs : chroms (merge S) = chroms S :=
    chroms_flatMap_blocks (chroms S) hnd _ (fun c hc => ⟨hBne c hc, hBchrom c hc⟩)
  have hstep : merge (merge S) = (chroms S).flatMap
      (fun c => mergeChrom ((merge S).filter (fun i => i.chromosome == c))) := by
    rw [show merge (merge S) = (chroms (merge S)).flatMap
      (fun c => mergeChrom ((merge S).filter (fun i => i.chromosome == c))) from rfl, hcs]
  rw [hstep]
  have hpt : ∀ c ∈ chroms S,
      mergeChrom ((merge S).filter (fun i => i.chromosome == c)) =
        mergeChrom (S.filter (fun i => i.chromosome == c)) := by
    intro c hc
    rw [show (merge S).filter (fun i => i.chromosome == c) =
        mergeChrom (S.filter (fun i => i.chromosome == c)) from
      filter_flatMap_blocks (chroms S) _ hBchrom hnd c hc]
    exact mergeChrom_idem _
  rw [flatMap_congr_mem _ _ _ hpt]
  rfl
